import Mathlib

/-!
Verification development for the livdoc document-chat service.

The definitions below are a shallow embedding of the TypeScript source:
the uploadthing `onUploadComplete` ingestion handler, the tRPC router
procedures (`getFileMessages`, `getFileUploadStatus`, `getFile`) and the
message `POST` handler.  External effects (network fetch, PDF parsing,
embedding/indexing, the streaming completion) are modelled by explicit
outcome parameters, and database rows by Lean lists; each run returns the
new store together with a trace of the externally observable events it
performed, in program order.
-/

namespace LivDoc

/-- Prisma `UploadStatus` enum. -/
inductive UploadStatus
  | PENDING
  | PROCESSING
  | SUCCESS
  | FAILED
deriving DecidableEq, Repr

/-- One entry of the `PLANS` array in `src/config/stripe.ts`
(only the fields the core logic reads). -/
structure Plan where
  name : String
  quota : Nat
  pagesPerPdf : Nat
deriving DecidableEq, Repr

/-- `PLANS` from `src/config/stripe.ts`: Free allows 5 pages per PDF,
Pro allows 25. -/
def PLANS : List Plan :=
  [ { name := "Free", quota := 10, pagesPerPdf := 5 },
    { name := "Pro", quota := 50, pagesPerPdf := 25 } ]

/-- `PLANS.find((plan) => plan.name === n)!.pagesPerPdf`. -/
def pagesPerPdfOf (n : String) : Nat :=
  ((PLANS.find? (fun p => p.name == n)).map Plan.pagesPerPdf).getD 0

/-- A row of the `File` table. -/
structure FileRec where
  id : String
  key : String
  name : String
  userId : String
  url : String
  uploadStatus : UploadStatus
deriving DecidableEq, Repr

/-- `db.file.update({ data: { uploadStatus: s }, where: { id: fid } })`:
rewrite the status of the row(s) whose id matches. -/
def updateStatus (files : List FileRec) (fid : String) (s : UploadStatus) :
    List FileRec :=
  files.map (fun f => if f.id == fid then { f with uploadStatus := s } else f)

/-- Outcome of the fetch + PDF-parse prefix of the try block: the fetch can
throw, the `PDFLoader` can throw, or parsing yields a page count. -/
inductive FetchParse
  | fetchError
  | parseError
  | pages (pagesAmt : Nat)
deriving DecidableEq, Repr

/-- External outcomes of one ingestion attempt: how fetch/parse went and
whether `PineconeStore.fromDocuments` succeeds or throws. -/
structure IngestEnv where
  fetchParse : FetchParse
  indexOk : Bool
deriving DecidableEq, Repr

/-- Externally observable events of an ingestion run, in program order. -/
inductive IngestEvent
  | createRow (key : String) (id : String)
  | fetchFile (key : String)
  | parsePdf
  | statusWrite (id : String) (s : UploadStatus)
  | upsertChunks (ns : String) (pages : Nat)
deriving DecidableEq, Repr

/-- `(isSubscribed && isProExceeded) || (!isSubscribed && isFreeExceeded)`:
whether the parsed page count exceeds the caller's plan limit. -/
def planExceeded (isSubscribed : Bool) (pagesAmt : Nat) : Bool :=
  (isSubscribed && (pagesPerPdfOf "Pro" < pagesAmt)) ||
  (!isSubscribed && (pagesPerPdfOf "Free" < pagesAmt))

/-- The row inserted by `db.file.create`: key, name, owner, a url derived
from the key, and initial status PROCESSING. -/
def createdRec (fileKey fileName userId newId : String) : FileRec :=
  { id := newId, key := fileKey, name := fileName, userId := userId,
    url := "https://utfs.io/f/" ++ fileKey,
    uploadStatus := UploadStatus.PROCESSING }

/-- The body of the upload handler after the existence guard: create the
row with status PROCESSING, then, inside a try block, fetch and parse the
PDF, compare the page count against the Free/Pro `pagesPerPdf` limits,
write FAILED when the caller's limit is exceeded (the source does not
return there), invoke `PineconeStore.fromDocuments` with namespace
`createdFile.id`, and write SUCCESS; any exception thrown in the try block
is caught and translated into a FAILED write.  (This is also exactly the
handler registered in the `pdfUploader` variant of the router, which runs
without the existence guard.) -/
def ingestFresh (env : IngestEnv) (isSubscribed : Bool)
    (fileKey fileName userId newId : String) (files : List FileRec) :
    List FileRec × List IngestEvent :=
    let createdFile : FileRec := createdRec fileKey fileName userId newId
    let files1 := files ++ [createdFile]
    let ev0 := [IngestEvent.createRow fileKey newId,
                IngestEvent.statusWrite newId UploadStatus.PROCESSING]
    match env.fetchParse with
    | FetchParse.fetchError =>
        (updateStatus files1 newId UploadStatus.FAILED,
         ev0 ++ [IngestEvent.fetchFile fileKey,
                 IngestEvent.statusWrite newId UploadStatus.FAILED])
    | FetchParse.parseError =>
        (updateStatus files1 newId UploadStatus.FAILED,
         ev0 ++ [IngestEvent.fetchFile fileKey, IngestEvent.parsePdf,
                 IngestEvent.statusWrite newId UploadStatus.FAILED])
    | FetchParse.pages pagesAmt =>
        let exceeded := planExceeded isSubscribed pagesAmt
        let files2 := if exceeded then updateStatus files1 newId UploadStatus.FAILED
                      else files1
        let ev2 := ev0 ++ [IngestEvent.fetchFile fileKey, IngestEvent.parsePdf] ++
                   (if exceeded then [IngestEvent.statusWrite newId UploadStatus.FAILED]
                    else [])
        if env.indexOk then
          (updateStatus files2 newId UploadStatus.SUCCESS,
           ev2 ++ [IngestEvent.upsertChunks newId pagesAmt,
                   IngestEvent.statusWrite newId UploadStatus.SUCCESS])
        else
          (updateStatus files2 newId UploadStatus.FAILED,
           ev2 ++ [IngestEvent.upsertChunks newId pagesAmt,
                   IngestEvent.statusWrite newId UploadStatus.FAILED])

/-- Shallow embedding of `onUploadComplete` (uploadthing core handler).
`newId` is the id Prisma assigns to the created row.  The handler first
checks for an existing row with the same storage key and returns without
any effect if one is found, then runs `ingestFresh`. -/
def onUploadComplete (env : IngestEnv) (isSubscribed : Bool)
    (fileKey fileName userId newId : String) (files : List FileRec) :
    List FileRec × List IngestEvent :=
  match files.find? (fun f => f.key == fileKey) with
  | some _ => (files, [])
  | none => ingestFresh env isSubscribed fileKey fileName userId newId files

/-- The sequence of status values written by a run (the create counts as
the initial PROCESSING write). -/
def statusTrace (tr : List IngestEvent) : List UploadStatus :=
  tr.filterMap (fun e => match e with
    | IngestEvent.statusWrite _ s => some s
    | _ => none)

/-- Whether a trace contains an invocation of the embed/index step. -/
def invokesUpsert (tr : List IngestEvent) : Bool :=
  tr.any (fun e => match e with
    | IngestEvent.upsertChunks _ _ => true
    | _ => false)

/-- Number of embed/index invocations recorded in a trace. -/
def upsertCount (tr : List IngestEvent) : Nat :=
  tr.countP (fun e => match e with
    | IngestEvent.upsertChunks _ _ => true
    | _ => false)

/-- A row of the `Message` table. -/
structure Msg where
  id : String
  fileId : String
  userId : String
  text : String
  isUserMessage : Bool
  createdAt : Nat
deriving DecidableEq, Repr

/-- tRPC error codes thrown by the router procedures modelled here. -/
inductive TrpcError
  | UNAUTHORIZED
  | NOT_FOUND
deriving DecidableEq, Repr

/-- `getFileUploadStatus`: look the file up by id and owner; if absent
return PENDING, otherwise the stored status.  Total: it never throws. -/
def getFileUploadStatus (files : List FileRec) (userId fileId : String) :
    UploadStatus :=
  match files.find? (fun f => f.id == fileId && f.userId == userId) with
  | none => UploadStatus.PENDING
  | some f => f.uploadStatus

/-- `getFile`: look the file up by storage key and owner; throw NOT_FOUND
when no owned match exists. -/
def getFile (files : List FileRec) (userId key : String) :
    Except TrpcError FileRec :=
  match files.find? (fun f => f.key == key && f.userId == userId) with
  | none => Except.error TrpcError.NOT_FOUND
  | some f => Except.ok f

/-- The rows fetched by the `getFileMessages` query: the document's
messages in `createdAt` descending order (`msgsDesc` is that snapshot),
positioned at the cursor row inclusively when a cursor is given, taking
`limit + 1` rows. -/
def fetchPage (msgsDesc : List Msg) (cursor : Option String) (limit : Nat) :
    List Msg :=
  (match cursor with
   | none => msgsDesc
   | some cid => msgsDesc.dropWhile (fun m => m.id != cid)).take (limit + 1)

/-- `getFileMessages` pagination core: fetch `limit + 1` rows; when more
than `limit` came back, pop the extra row and return its id as the next
cursor, else no cursor. -/
def getFileMessages (msgsDesc : List Msg) (cursor : Option String)
    (limit : Nat) : List Msg × Option String :=
  let messages := fetchPage msgsDesc cursor limit
  if limit < messages.length then
    (messages.dropLast, messages.getLast?.map Msg.id)
  else (messages, none)

/-- Client-side exhaustion of the paginated read: call `getFileMessages`,
follow the returned cursor until it is absent, concatenating the pages.
`fuel` bounds the recursion. -/
def collectAll (msgsDesc : List Msg) (limit : Nat) :
    Nat → Option String → List Msg
  | 0, _ => []
  | fuel + 1, cursor =>
    match (getFileMessages msgsDesc cursor limit).2 with
    | none => (getFileMessages msgsDesc cursor limit).1
    | some c =>
        (getFileMessages msgsDesc cursor limit).1 ++
          collectAll msgsDesc limit fuel (some c)

/-- Outcome of the streaming completion request: it can fail before any
token is produced, stream tokens to a clean end (`onCompletion` fires with
the accumulated text), or hit a hard transport error after forwarding some
tokens (no `onCompletion`). -/
inductive StreamOutcome
  | errorBeforeTokens
  | cleanEnd (tokens : List String)
  | transportError (tokens : List String)
deriving DecidableEq, Repr

/-- External outcomes of the answer path: the similarity-search results
and the completion stream's behaviour. -/
structure ChatEnv where
  simResults : List String
  outcome : StreamOutcome
deriving DecidableEq, Repr

/-- Externally observable events of the message POST handler, in program
order. -/
inductive ChatEvent
  | persistUserMsg (text : String)
  | vectorQuery (ns : String) (query : String) (k : Nat)
  | completionRequest (prompt : List (String × String))
  | forwardToken (t : String)
  | persistGenerated (text : String)
deriving DecidableEq, Repr

/-- The HTTP-level result of the message POST handler. -/
inductive ChatResult
  | unauthorized
  | notFound
  | streamError (forwarded : List String)
  | streamed (forwarded : List String)
deriving DecidableEq, Repr

/-- The persistent store: `File` rows and `Message` rows.  The message
list is kept in insertion order; inserts append, and `createdAt` grows
with insertion, so the list order is the `createdAt` ascending order used
by the queries below. -/
structure DB where
  files : List FileRec
  messages : List Msg
deriving DecidableEq, Repr

/-- `db.message.findMany({ where: { fileId }, orderBy: { createdAt: "asc" },
take: 6 })` applied to the document's messages in ascending order: the
first six rows of the ascending order. -/
def prevMessagesQuery (msgsAsc : List Msg) : List Msg :=
  msgsAsc.take 6

/-- `formattedPrevMessages`: role/content pair for one stored message. -/
def formatRole (m : Msg) : String × String :=
  (if m.isUserMessage then "user" else "assistant", m.text)

/-- One transcript line of the prompt template. -/
def formatTranscriptLine (p : String × String) : String :=
  if p.1 == "user" then "User: " ++ p.2 ++ "\n"
  else "Assistant: " ++ p.2 ++ "\n"

/-- The system instruction of the prompt (punctuation abridged). -/
def systemPromptText : String :=
  "Use the following pieces of context (or previous conversaton if needed) to answer the users question in markdown format."

/-- The user turn of the prompt: instructions, the transcript of the
fetched conversation window (the JS template interpolates the mapped
array, joining with commas), the retrieved context joined by blank lines,
and the literal question (text abridged to its structure). -/
def userPromptText (prev : List (String × String)) (ctx : List String)
    (question : String) : String :=
  "Use the following pieces of context (or previous conversaton if needed) to answer the users question in markdown format. If you do not know the answer, just say that you do not know." ++
  "\n----------------\n" ++ "PREVIOUS CONVERSATION:\n" ++
  String.intercalate "," (prev.map formatTranscriptLine) ++
  "\n----------------\n" ++ "CONTEXT:\n" ++
  String.intercalate "\n\n" ctx ++ "\n\nUSER INPUT: " ++ question

/-- The message list sent to the completion provider: a system turn and a
user turn. -/
def chatPrompt (prev : List (String × String)) (ctx : List String)
    (question : String) : List (String × String) :=
  [("system", systemPromptText), ("user", userPromptText prev ctx question)]

/-- The body of the message POST handler after authentication and the
owned-file lookup: persist the user's message, run the similarity search
(namespace `file.id`, k = 4), read the conversation window, compose the
prompt, open the streaming completion request, forward each token to the
caller while accumulating, and on a clean stream end persist the
accumulated text as a generated message via `onCompletion`. -/
def chatPipeline (db : DB) (uid : String) (file : FileRec)
    (fileId message userMsgId genMsgId : String) (now : Nat)
    (env : ChatEnv) : ChatResult × DB × List ChatEvent :=
  let userMsg : Msg :=
    { id := userMsgId, fileId := fileId, userId := uid, text := message,
      isUserMessage := true, createdAt := now }
  let db1 : DB := { db with messages := db.messages ++ [userMsg] }
  let results := env.simResults
  let prevMessage :=
    prevMessagesQuery (db1.messages.filter (fun m => m.fileId == fileId))
  let formattedPrevMessages := prevMessage.map formatRole
  let prompt := chatPrompt formattedPrevMessages results message
  let ev3 := [ChatEvent.persistUserMsg message,
              ChatEvent.vectorQuery file.id message 4,
              ChatEvent.completionRequest prompt]
  match env.outcome with
  | StreamOutcome.errorBeforeTokens => (ChatResult.streamError [], db1, ev3)
  | StreamOutcome.cleanEnd tokens =>
      let genMsg : Msg :=
        { id := genMsgId, fileId := fileId, userId := uid,
          text := String.join tokens, isUserMessage := false,
          createdAt := now }
      (ChatResult.streamed tokens,
       { db1 with messages := db1.messages ++ [genMsg] },
       ev3 ++ tokens.map ChatEvent.forwardToken ++
         [ChatEvent.persistGenerated (String.join tokens)])
  | StreamOutcome.transportError tokens =>
      (ChatResult.streamError tokens, db1,
       ev3 ++ tokens.map ChatEvent.forwardToken)

/-- Shallow embedding of the message `POST` handler: 401 without a user
id, 404 (with no state change and no effects) unless the file exists and
belongs to the caller, then `chatPipeline`. -/
def messagePost (db : DB) (userId : Option String)
    (fileId message userMsgId genMsgId : String) (now : Nat)
    (env : ChatEnv) : ChatResult × DB × List ChatEvent :=
  match userId with
  | none => (ChatResult.unauthorized, db, [])
  | some uid =>
    match db.files.find? (fun f => f.id == fileId && f.userId == uid) with
    | none => (ChatResult.notFound, db, [])
    | some file =>
        chatPipeline db uid file fileId message userMsgId genMsgId now env

/-- The tokens a trace forwarded to the caller, in order. -/
def fwdTokens (tr : List ChatEvent) : List String :=
  tr.filterMap (fun e => match e with
    | ChatEvent.forwardToken t => some t
    | _ => none)

/-- The texts of generated messages a trace persisted, in order. -/
def genTexts (tr : List ChatEvent) : List String :=
  tr.filterMap (fun e => match e with
    | ChatEvent.persistGenerated t => some t
    | _ => none)

/-- The non-user (generated) rows of a message table. -/
def nonUserMessages (msgs : List Msg) : List Msg :=
  msgs.filter (fun m => !m.isUserMessage)

/-- Seven messages of one document in ascending `createdAt` order. -/
def msgs7 : List Msg :=
  [ { id := "m1", fileId := "d", userId := "u", text := "t1",
      isUserMessage := true, createdAt := 1 },
    { id := "m2", fileId := "d", userId := "u", text := "t2",
      isUserMessage := false, createdAt := 2 },
    { id := "m3", fileId := "d", userId := "u", text := "t3",
      isUserMessage := true, createdAt := 3 },
    { id := "m4", fileId := "d", userId := "u", text := "t4",
      isUserMessage := false, createdAt := 4 },
    { id := "m5", fileId := "d", userId := "u", text := "t5",
      isUserMessage := true, createdAt := 5 },
    { id := "m6", fileId := "d", userId := "u", text := "t6",
      isUserMessage := false, createdAt := 6 },
    { id := "m7", fileId := "d", userId := "u", text := "t7",
      isUserMessage := true, createdAt := 7 } ]

/-- The newest message of `msgs7`. -/
def msg7rec : Msg :=
  { id := "m7", fileId := "d", userId := "u", text := "t7",
    isUserMessage := true, createdAt := 7 }

/-- Five messages of one document in descending `createdAt` order, as the
`getFileMessages` query returns them. -/
def msgs5 : List Msg :=
  [ { id := "n5", fileId := "d", userId := "u", text := "s5",
      isUserMessage := true, createdAt := 5 },
    { id := "n4", fileId := "d", userId := "u", text := "s4",
      isUserMessage := false, createdAt := 4 },
    { id := "n3", fileId := "d", userId := "u", text := "s3",
      isUserMessage := true, createdAt := 3 },
    { id := "n2", fileId := "d", userId := "u", text := "s2",
      isUserMessage := false, createdAt := 2 },
    { id := "n1", fileId := "d", userId := "u", text := "s1",
      isUserMessage := true, createdAt := 1 } ]

/-- C1: an unsubscribed caller uploads a PDF that parses to 10 pages
(Free limit is 5) and all external steps succeed.  Contrary to the claim,
the handler still invokes the embed/index step for the document and the
document's final status is SUCCESS, not FAILED: the policy branch writes
FAILED but does not stop. -/
theorem policyExceeded_reaches_success_and_indexes :
    (((onUploadComplete ⟨FetchParse.pages 10, true⟩ false "k0" "doc.pdf" "u0" "f0"
        []).1.find? (fun f => f.id == "f0")).map FileRec.uploadStatus
      = some UploadStatus.SUCCESS)
    ∧ invokesUpsert (onUploadComplete ⟨FetchParse.pages 10, true⟩ false "k0"
        "doc.pdf" "u0" "f0" []).2 = true := by
  decide

/-- C2: on the same policy-exceeded run the sequence of status writes is
PROCESSING, FAILED, SUCCESS — the status regresses from the terminal
FAILED back to SUCCESS, refuting monotonicity. -/
theorem statusWrites_regress_failed_to_success :
    statusTrace (onUploadComplete ⟨FetchParse.pages 10, true⟩ false "k0"
        "doc.pdf" "u0" "f0" []).2
      = [UploadStatus.PROCESSING, UploadStatus.FAILED, UploadStatus.SUCCESS] := by
  decide

lemma onUploadComplete_of_not_exists (env : IngestEnv) (isSubscribed : Bool)
    (fileKey fileName userId newId : String) (files : List FileRec)
    (hfind : files.find? (fun f => f.key == fileKey) = none) :
    onUploadComplete env isSubscribed fileKey fileName userId newId files
      = ingestFresh env isSubscribed fileKey fileName userId newId files := by
  unfold onUploadComplete
  rw [hfind]

lemma onUploadComplete_of_exists (env : IngestEnv) (isSubscribed : Bool)
    (fileKey fileName userId newId : String) (files : List FileRec) (g : FileRec)
    (hfind : files.find? (fun f => f.key == fileKey) = some g) :
    onUploadComplete env isSubscribed fileKey fileName userId newId files
      = (files, []) := by
  unfold onUploadComplete
  rw [hfind]

lemma find?_key_eq_none (fileKey : String) (files : List FileRec)
    (hkey : ∀ f ∈ files, f.key ≠ fileKey) :
    files.find? (fun f => f.key == fileKey) = none := by
  rw [List.find?_eq_none]
  intro f hf
  simp [hkey f hf]

lemma updateStatus_append_fresh (files : List FileRec) (c : FileRec)
    (s : UploadStatus) (fid : String) (hcid : c.id = fid)
    (h : ∀ f ∈ files, f.id ≠ fid) :
    updateStatus (files ++ [c]) fid s
      = files ++ [{ c with uploadStatus := s }] := by
  subst hcid
  induction files with
  | nil => simp [updateStatus]
  | cons f fs ih =>
      have hf : f.id ≠ c.id := h f (List.mem_cons_self f fs)
      have hrest : ∀ g ∈ fs, g.id ≠ c.id :=
        fun g hg => h g (List.mem_cons_of_mem f hg)
      simp only [updateStatus, List.cons_append, List.map_cons] at *
      rw [if_neg (by simp [hf])]
      rw [ih hrest]

lemma find?_append_fresh (files : List FileRec) (c : FileRec)
    (fid : String) (hcid : c.id = fid) (h : ∀ f ∈ files, f.id ≠ fid) :
    (files ++ [c]).find? (fun f => f.id == fid) = some c := by
  subst hcid
  induction files with
  | nil => simp
  | cons f fs ih =>
      have hf : f.id ≠ c.id := h f (List.mem_cons_self f fs)
      have hrest : ∀ g ∈ fs, g.id ≠ c.id :=
        fun g hg => h g (List.mem_cons_of_mem f hg)
      rw [List.cons_append, List.find?_cons_of_neg _ (by simp [hf])]
      exact ih hrest

lemma find?_status_updated (files : List FileRec) (c : FileRec)
    (s : UploadStatus) (fid : String) (hcid : c.id = fid)
    (h : ∀ f ∈ files, f.id ≠ fid) :
    ((updateStatus (files ++ [c]) fid s).find? (fun f => f.id == fid)).map
        FileRec.uploadStatus = some s := by
  rw [updateStatus_append_fresh files c s fid hcid h]
  rw [find?_append_fresh files { c with uploadStatus := s } fid hcid h]
  rfl

lemma countP_key_updateStatus (files : List FileRec) (fid : String)
    (s : UploadStatus) (k : String) :
    (updateStatus files fid s).countP (fun f => f.key == k)
      = files.countP (fun f => f.key == k) := by
  induction files with
  | nil => rfl
  | cons f fs ih =>
      simp only [updateStatus, List.map_cons, List.countP_cons] at *
      rw [ih]
      congr 1
      split <;> rfl

/-- C3: every ingestion run that creates the document row (the storage key
is new and the assigned id fresh) leaves that row with status SUCCESS or
FAILED, for every combination of fetch, parse and indexing outcomes: no
code path leaves it in PROCESSING. -/
theorem ingest_always_terminal (env : IngestEnv) (isSubscribed : Bool)
    (fileKey fileName userId newId : String) (files : List FileRec)
    (hkey : ∀ f ∈ files, f.key ≠ fileKey)
    (hid : ∀ f ∈ files, f.id ≠ newId) :
    (((onUploadComplete env isSubscribed fileKey fileName userId newId
        files).1.find? (fun f => f.id == newId)).map FileRec.uploadStatus
      = some UploadStatus.SUCCESS)
    ∨ (((onUploadComplete env isSubscribed fileKey fileName userId newId
        files).1.find? (fun f => f.id == newId)).map FileRec.uploadStatus
      = some UploadStatus.FAILED) := by
  rw [onUploadComplete_of_not_exists _ _ _ _ _ _ _
    (find?_key_eq_none fileKey files hkey)]
  obtain ⟨fp, idx⟩ := env
  cases fp with
  | fetchError =>
      right
      exact find?_status_updated files _ UploadStatus.FAILED newId rfl hid
  | parseError =>
      right
      exact find?_status_updated files _ UploadStatus.FAILED newId rfl hid
  | pages n =>
      simp only [ingestFresh]
      cases hpe : planExceeded isSubscribed n with
      | true =>
          simp only [reduceIte]
          cases idx with
          | true =>
              left
              rw [updateStatus_append_fresh files
                (createdRec fileKey fileName userId newId)
                UploadStatus.FAILED newId rfl hid]
              refine find?_status_updated files _ UploadStatus.SUCCESS newId ?_ hid
              rfl
          | false =>
              right
              rw [updateStatus_append_fresh files
                (createdRec fileKey fileName userId newId)
                UploadStatus.FAILED newId rfl hid]
              refine find?_status_updated files _ UploadStatus.FAILED newId ?_ hid
              rfl
      | false =>
          simp only [reduceIte, Bool.false_eq_true, if_false]
          cases idx with
          | true =>
              left
              refine find?_status_updated files _ UploadStatus.SUCCESS newId ?_ hid
              rfl
          | false =>
              right
              refine find?_status_updated files _ UploadStatus.FAILED newId ?_ hid
              rfl

/-- C3 witness: a concrete run (fresh key, parse yields 3 pages, indexing
succeeds) ends in a terminal status. -/
theorem ingest_always_terminal_witness :
    (((onUploadComplete ⟨FetchParse.pages 3, true⟩ false "k1" "a.pdf" "u1" "f1"
        []).1.find? (fun f => f.id == "f1")).map FileRec.uploadStatus
      = some UploadStatus.SUCCESS)
    ∨ (((onUploadComplete ⟨FetchParse.pages 3, true⟩ false "k1" "a.pdf" "u1" "f1"
        []).1.find? (fun f => f.id == "f1")).map FileRec.uploadStatus
      = some UploadStatus.FAILED) :=
  ingest_always_terminal ⟨FetchParse.pages 3, true⟩ false "k1" "a.pdf" "u1" "f1"
    [] (by intro f hf; cases hf) (by intro f hf; cases hf)

lemma key_count_after_fresh (env : IngestEnv) (isSubscribed : Bool)
    (fileKey fileName userId newId : String) (files : List FileRec) :
    (ingestFresh env isSubscribed fileKey fileName userId newId files).1.countP
        (fun f => f.key == fileKey)
      = files.countP (fun f => f.key == fileKey) + 1 := by
  obtain ⟨fp, idx⟩ := env
  cases fp with
  | fetchError =>
      simp [ingestFresh, countP_key_updateStatus, List.countP_append,
        List.countP_cons, createdRec]
  | parseError =>
      simp [ingestFresh, countP_key_updateStatus, List.countP_append,
        List.countP_cons, createdRec]
  | pages m =>
      cases hpe : planExceeded isSubscribed m <;> cases idx <;>
        simp [ingestFresh, hpe, countP_key_updateStatus, List.countP_append,
          List.countP_cons, createdRec]

lemma upsertCount_fresh_le (env : IngestEnv) (isSubscribed : Bool)
    (fileKey fileName userId newId : String) (files : List FileRec) :
    upsertCount (ingestFresh env isSubscribed fileKey fileName userId newId
      files).2 ≤ 1 := by
  obtain ⟨fp, idx⟩ := env
  cases fp with
  | fetchError => simp [ingestFresh, upsertCount]
  | parseError => simp [ingestFresh, upsertCount]
  | pages m =>
      cases hpe : planExceeded isSubscribed m <;> cases idx <;>
        simp [ingestFresh, hpe, upsertCount, List.countP_append,
          List.countP_cons]

/-- C4: ingestion is idempotent on the storage key.  Any invocation
against a store that already holds a row with the key returns that store
unchanged with an empty effect trace (no fetch, no indexing, no status
write); a first invocation on a store without the key leaves exactly one
row with the key, so a second sequential invocation is a no-op and the two
runs together invoke the embed/index step at most once. -/
theorem ingest_idempotent_on_key (env1 env2 : IngestEnv) (s1 s2 : Bool)
    (fileKey n1 u1 id1 n2 u2 id2 : String) (files : List FileRec)
    (hkey : ∀ f ∈ files, f.key ≠ fileKey) :
    (∀ (env' : IngestEnv) (s' : Bool) (n' u' id' : String)
        (files' : List FileRec), (∃ f ∈ files', f.key = fileKey) →
        onUploadComplete env' s' fileKey n' u' id' files' = (files', []))
    ∧ (onUploadComplete env1 s1 fileKey n1 u1 id1 files).1.countP
        (fun f => f.key == fileKey) = 1
    ∧ onUploadComplete env2 s2 fileKey n2 u2 id2
        (onUploadComplete env1 s1 fileKey n1 u1 id1 files).1
      = ((onUploadComplete env1 s1 fileKey n1 u1 id1 files).1, [])
    ∧ upsertCount (onUploadComplete env1 s1 fileKey n1 u1 id1 files).2
        + upsertCount (onUploadComplete env2 s2 fileKey n2 u2 id2
            (onUploadComplete env1 s1 fileKey n1 u1 id1 files).1).2 ≤ 1 := by
  have hfirst : onUploadComplete env1 s1 fileKey n1 u1 id1 files
      = ingestFresh env1 s1 fileKey n1 u1 id1 files :=
    onUploadComplete_of_not_exists env1 s1 fileKey n1 u1 id1 files
      (find?_key_eq_none fileKey files hkey)
  have hdup : ∀ (env' : IngestEnv) (s' : Bool) (n' u' id' : String)
      (files' : List FileRec), (∃ f ∈ files', f.key = fileKey) →
      onUploadComplete env' s' fileKey n' u' id' files' = (files', []) := by
    intro env' s' n' u' id' files' hex
    obtain ⟨f, hf, hfk⟩ := hex
    cases hfind : files'.find? (fun g => g.key == fileKey) with
    | none =>
        have hcontra := List.find?_eq_none.mp hfind f hf
        simp [hfk] at hcontra
    | some g => exact onUploadComplete_of_exists env' s' fileKey n' u' id' files' g hfind
  have h0 : files.countP (fun f => f.key == fileKey) = 0 := by
    rw [List.countP_eq_zero]
    intro f hf
    simp [hkey f hf]
  have hcount : (onUploadComplete env1 s1 fileKey n1 u1 id1 files).1.countP
      (fun f => f.key == fileKey) = 1 := by
    rw [hfirst, key_count_after_fresh, h0]
  have hmem : ∃ f ∈ (onUploadComplete env1 s1 fileKey n1 u1 id1 files).1,
      f.key = fileKey := by
    have hpos : 0 < (onUploadComplete env1 s1 fileKey n1 u1 id1 files).1.countP
        (fun f => f.key == fileKey) := by omega
    obtain ⟨f, hf, hp⟩ := List.countP_pos_iff.mp hpos
    exact ⟨f, hf, by simpa using hp⟩
  have hsecond := hdup env2 s2 n2 u2 id2 _ hmem
  refine ⟨hdup, hcount, hsecond, ?_⟩
  rw [hsecond]
  simp only [upsertCount, List.countP_nil, Nat.add_zero]
  rw [hfirst]
  exact upsertCount_fresh_le env1 s1 fileKey n1 u1 id1 files

/-- C4 witness: after one concrete ingestion of a new key into an empty
store, exactly one row carries that key. -/
theorem ingest_idempotent_on_key_witness :
    (onUploadComplete ⟨FetchParse.pages 3, true⟩ false "k2" "b.pdf" "u2" "f2"
      []).1.countP (fun f => f.key == "k2") = 1 :=
  (ingest_idempotent_on_key ⟨FetchParse.pages 3, true⟩ ⟨FetchParse.pages 3, true⟩
    false false "k2" "b.pdf" "u2" "f2" "c.pdf" "u3" "f3" []
    (by intro f hf; cases hf)).2.1

/-- C8 counterexample: on a document with seven messages, the newest
message (largest `createdAt`) is not in the conversation window the
handler fetches — the window is not the six most recent messages. -/
theorem historyWindow_not_newest_six :
    6 < msgs7.length
    ∧ msg7rec ∈ msgs7
    ∧ msgs7.all (fun m => m.createdAt ≤ msg7rec.createdAt) = true
    ∧ msg7rec ∉ prevMessagesQuery msgs7 := by
  decide

/-- C8 amended: the conversation window is the first six messages in
ascending creation order — the six oldest — presented oldest-first; every
message in the window is no newer than every message left out. -/
theorem historyWindow_oldest_six (msgsAsc : List Msg)
    (hsorted : msgsAsc.Pairwise (fun a b => a.createdAt ≤ b.createdAt)) :
    prevMessagesQuery msgsAsc = msgsAsc.take 6
    ∧ (prevMessagesQuery msgsAsc).length ≤ 6
    ∧ (prevMessagesQuery msgsAsc).Pairwise
        (fun a b => a.createdAt ≤ b.createdAt)
    ∧ ∀ m ∈ prevMessagesQuery msgsAsc, ∀ m' ∈ msgsAsc.drop 6,
        m.createdAt ≤ m'.createdAt := by
  refine ⟨rfl, ?_, ?_, ?_⟩
  · exact List.length_take_le 6 msgsAsc
  · exact hsorted.sublist (List.take_sublist 6 msgsAsc)
  · have h2 : (msgsAsc.take 6 ++ msgsAsc.drop 6).Pairwise
        (fun a b => a.createdAt ≤ b.createdAt) := by
      rw [List.take_append_drop]
      exact hsorted
    exact fun m hm m' hm' => (List.pairwise_append.mp h2).2.2 m hm m' hm'

/-- C8 amended witness: on the concrete seven-message document the window
is the six oldest messages. -/
theorem historyWindow_oldest_six_witness :
    prevMessagesQuery msgs7 = msgs7.take 6 :=
  (historyWindow_oldest_six msgs7 (by decide)).1

/-- C9: ownership is enforced so that a document owned by another user is
indistinguishable from a nonexistent one.  If no file with the given key
is owned by the caller, `getFile` returns NOT_FOUND — the same observable
result as against any store in which the key does not exist at all — and
the chat path's lookup likewise answers 404 with no state change and no
effects when no file with the given id is owned by the caller. -/
theorem ownership_notfound_indistinguishable (files : List FileRec)
    (uid key : String) (db : DB)
    (fileId message userMsgId genMsgId : String) (now : Nat) (env : ChatEnv)
    (hkeyown : ∀ f ∈ files, f.key = key → f.userId ≠ uid)
    (hidown : ∀ f ∈ db.files, f.id = fileId → f.userId ≠ uid) :
    getFile files uid key = Except.error TrpcError.NOT_FOUND
    ∧ (∀ files₂ : List FileRec, (∀ f ∈ files₂, f.key ≠ key) →
        getFile files uid key = getFile files₂ uid key)
    ∧ messagePost db (some uid) fileId message userMsgId genMsgId now env
        = (ChatResult.notFound, db, []) := by
  have hfind : files.find? (fun f => f.key == key && f.userId == uid)
      = none := by
    rw [List.find?_eq_none]
    intro f hf hpf
    simp only [Bool.and_eq_true, beq_iff_eq] at hpf
    exact hkeyown f hf hpf.1 hpf.2
  have hget : getFile files uid key = Except.error TrpcError.NOT_FOUND := by
    unfold getFile
    rw [hfind]
  refine ⟨hget, ?_, ?_⟩
  · intro files₂ habsent
    have hfind₂ : files₂.find? (fun f => f.key == key && f.userId == uid)
        = none := by
      rw [List.find?_eq_none]
      intro f hf hpf
      simp only [Bool.and_eq_true, beq_iff_eq] at hpf
      exact habsent f hf hpf.1
    rw [hget]
    unfold getFile
    rw [hfind₂]
  · have hfindid : db.files.find? (fun f => f.id == fileId && f.userId == uid)
        = none := by
      rw [List.find?_eq_none]
      intro f hf hpf
      simp only [Bool.and_eq_true, beq_iff_eq] at hpf
      exact hidown f hf hpf.1 hpf.2
    have hred : messagePost db (some uid) fileId message userMsgId genMsgId
        now env
        = match db.files.find? (fun f => f.id == fileId && f.userId == uid) with
          | none => (ChatResult.notFound, db, [])
          | some file =>
              chatPipeline db uid file fileId message userMsgId genMsgId now env :=
      rfl
    rw [hred, hfindid]

/-- C9 witness: with one file owned by somebody else, the caller's lookup
by key answers NOT_FOUND. -/
theorem ownership_notfound_indistinguishable_witness :
    getFile [{ id := "d1", key := "k1", name := "n", userId := "other",
               url := "url", uploadStatus := UploadStatus.SUCCESS }] "me" "k1"
      = Except.error TrpcError.NOT_FOUND :=
  (ownership_notfound_indistinguishable
    [{ id := "d1", key := "k1", name := "n", userId := "other",
       url := "url", uploadStatus := UploadStatus.SUCCESS }] "me" "k1"
    ⟨[], []⟩ "d1" "q" "m1" "m2" 5 ⟨[], StreamOutcome.errorBeforeTokens⟩
    (by decide) (by intro f hf; cases hf)).1

/-- C10: the status poll returns PENDING whenever the queried file does
not exist for the caller (unknown id or owned by another user), the same
value it returns for an owned document whose status is PENDING. -/
theorem uploadStatus_pending_for_unknown (files : List FileRec)
    (uid fileId : String)
    (h : ∀ f ∈ files, f.id = fileId → f.userId ≠ uid) :
    getFileUploadStatus files uid fileId = UploadStatus.PENDING
    ∧ ∀ g : FileRec, g.id = fileId → g.userId = uid →
        g.uploadStatus = UploadStatus.PENDING →
        getFileUploadStatus [g] uid fileId
          = getFileUploadStatus files uid fileId := by
  have hfind : files.find? (fun f => f.id == fileId && f.userId == uid)
      = none := by
    rw [List.find?_eq_none]
    intro f hf hpf
    simp only [Bool.and_eq_true, beq_iff_eq] at hpf
    exact h f hf hpf.1 hpf.2
  have hpend : getFileUploadStatus files uid fileId = UploadStatus.PENDING := by
    unfold getFileUploadStatus
    rw [hfind]
  refine ⟨hpend, ?_⟩
  intro g hg1 hg2 hg3
  have hg : getFileUploadStatus [g] uid fileId = UploadStatus.PENDING := by
    unfold getFileUploadStatus
    rw [List.find?_cons_of_pos _ (by simp [hg1, hg2])]
    exact hg3
  rw [hg, hpend]

/-- C10 witness: polling a file owned by another user reports PENDING. -/
theorem uploadStatus_pending_for_unknown_witness :
    getFileUploadStatus
      [{ id := "d1", key := "k1", name := "n", userId := "other",
         url := "url", uploadStatus := UploadStatus.SUCCESS }] "me" "d1"
      = UploadStatus.PENDING :=
  (uploadStatus_pending_for_unknown
    [{ id := "d1", key := "k1", name := "n", userId := "other",
       url := "url", uploadStatus := UploadStatus.SUCCESS }] "me" "d1"
    (by decide)).1

lemma dropWhile_id_eq (pre : List Msg) (m : Msg) (rest : List Msg)
    (hnd : ((pre ++ m :: rest).map Msg.id).Nodup) :
    (pre ++ m :: rest).dropWhile (fun x => x.id != m.id) = m :: rest := by
  induction pre with
  | nil =>
      rw [List.nil_append, List.dropWhile_cons, if_neg (by simp)]
  | cons p pre ih =>
      have hmmem : m.id ∈ (pre ++ m :: rest).map Msg.id :=
        List.mem_map_of_mem Msg.id (by simp)
      rw [List.cons_append, List.map_cons, List.nodup_cons] at hnd
      have hp : p.id ≠ m.id := fun he => hnd.1 (by rw [he]; exact hmmem)
      rw [List.cons_append, List.dropWhile_cons, if_pos (by simpa using hp)]
      exact ih hnd.2

lemma collectAll_eq_suffix (msgsDesc : List Msg) (limit : Nat)
    (hnd : (msgsDesc.map Msg.id).Nodup) (hl : 1 ≤ limit) :
    ∀ (fuel : Nat) (pre rem : List Msg) (cursor : Option String),
      msgsDesc = pre ++ rem → rem.length ≤ fuel →
      fetchPage msgsDesc cursor limit = rem.take (limit + 1) →
      collectAll msgsDesc limit fuel cursor = rem := by
  intro fuel
  induction fuel with
  | zero =>
      intro pre rem cursor hsplit hlen hfetch
      have hnil : rem = [] := List.length_eq_zero.mp (Nat.le_zero.mp hlen)
      simp [collectAll, hnil]
  | succ fuel ih =>
      intro pre rem cursor hsplit hlen hfetch
      by_cases hbig : limit < rem.length
      · have htake : rem.take (limit + 1)
            = rem.take limit ++ [rem[limit]] := by
          rw [List.take_succ, List.getElem?_eq_getElem hbig]
          rfl
        have hlentake : (rem.take limit).length = limit := by
          rw [List.length_take]
          omega
        have hpage : getFileMessages msgsDesc cursor limit
            = (rem.take limit, some (rem[limit]).id) := by
          simp only [getFileMessages]
          rw [hfetch, htake]
          rw [if_pos (by rw [List.length_append, hlentake]; simp)]
          rw [List.dropLast_concat, List.getLast?_concat]
          rfl
        have hsuffix : rem.drop limit = rem[limit] :: rem.drop (limit + 1) :=
          List.drop_eq_getElem_cons hbig
        have hsplit2 : msgsDesc = (pre ++ rem.take limit) ++ rem.drop limit := by
          rw [List.append_assoc, List.take_append_drop]
          exact hsplit
        have hlist : (pre ++ rem.take limit) ++ rem[limit] :: rem.drop (limit + 1)
            = msgsDesc := by
          rw [← hsuffix]
          exact hsplit2.symm
        have hnd2 : (((pre ++ rem.take limit) ++
            rem[limit] :: rem.drop (limit + 1)).map Msg.id).Nodup := by
          rw [hlist]
          exact hnd
        have hdw := dropWhile_id_eq (pre ++ rem.take limit) (rem[limit])
          (rem.drop (limit + 1)) hnd2
        rw [hlist] at hdw
        have hfetch2 : fetchPage msgsDesc (some (rem[limit]).id) limit
            = (rem.drop limit).take (limit + 1) := by
          show (msgsDesc.dropWhile
              (fun m => m.id != (rem[limit]).id)).take (limit + 1)
            = (rem.drop limit).take (limit + 1)
          rw [hdw, ← hsuffix]
        have hrem2len : (rem.drop limit).length ≤ fuel := by
          rw [List.length_drop]
          omega
        have hrec := ih (pre ++ rem.take limit) (rem.drop limit)
          (some (rem[limit]).id) hsplit2 hrem2len hfetch2
        simp only [collectAll, hpage]
        rw [hrec, List.take_append_drop]
      · have htake : rem.take (limit + 1) = rem :=
          List.take_of_length_le (by omega)
        have hpage : getFileMessages msgsDesc cursor limit = (rem, none) := by
          simp only [getFileMessages]
          rw [hfetch, htake]
          rw [if_neg hbig]
        simp only [collectAll, hpage]

/-- C5: with pairwise-distinct message ids and a positive limit, for the
document's messages in `createdAt` descending order: exhausting the
paginated read by following returned cursors yields exactly the full
message set, newest-first, with no duplicates and no gaps; and no single
call ever returns more than `limit` rows (the extra fetched row is
withheld). -/
theorem pagination_exhaustive_newest_first (msgsDesc : List Msg)
    (limit : Nat) (hnd : (msgsDesc.map Msg.id).Nodup) (hl : 1 ≤ limit)
    (hsorted : msgsDesc.Pairwise (fun a b => b.createdAt ≤ a.createdAt)) :
    collectAll msgsDesc limit msgsDesc.length none = msgsDesc
    ∧ (collectAll msgsDesc limit msgsDesc.length none).Pairwise
        (fun a b => b.createdAt ≤ a.createdAt)
    ∧ ∀ cursor : Option String,
        ((getFileMessages msgsDesc cursor limit).1).length ≤ limit := by
  have hmain := collectAll_eq_suffix msgsDesc limit hnd hl msgsDesc.length
    [] msgsDesc none rfl (le_refl _) rfl
  refine ⟨hmain, by rw [hmain]; exact hsorted, ?_⟩
  intro cursor
  have hfl : (fetchPage msgsDesc cursor limit).length ≤ limit + 1 :=
    List.length_take_le _ _
  simp only [getFileMessages]
  by_cases hc : limit < (fetchPage msgsDesc cursor limit).length
  · rw [if_pos hc]
    show (fetchPage msgsDesc cursor limit).dropLast.length ≤ limit
    rw [List.length_dropLast]
    omega
  · rw [if_neg hc]
    show (fetchPage msgsDesc cursor limit).length ≤ limit
    omega

/-- C5 witness: paginating the concrete five-message document with limit 2
returns the whole set in order. -/
theorem pagination_exhaustive_newest_first_witness :
    collectAll msgs5 2 msgs5.length none = msgs5 :=
  (pagination_exhaustive_newest_first msgs5 2 (by decide) (by decide)
    (by decide)).1

lemma messagePost_found (db : DB) (uid : String) (file : FileRec)
    (fileId message userMsgId genMsgId : String) (now : Nat) (env : ChatEnv)
    (hfile : db.files.find? (fun f => f.id == fileId && f.userId == uid)
      = some file) :
    messagePost db (some uid) fileId message userMsgId genMsgId now env
      = chatPipeline db uid file fileId message userMsgId genMsgId now env := by
  have hred : messagePost db (some uid) fileId message userMsgId genMsgId
      now env
      = match db.files.find? (fun f => f.id == fileId && f.userId == uid) with
        | none => (ChatResult.notFound, db, [])
        | some file =>
            chatPipeline db uid file fileId message userMsgId genMsgId now env :=
    rfl
  rw [hred, hfile]

lemma messagePost_lookup_failed (db : DB) (uid : String)
    (fileId message userMsgId genMsgId : String) (now : Nat) (env : ChatEnv)
    (hfile : db.files.find? (fun f => f.id == fileId && f.userId == uid)
      = none) :
    messagePost db (some uid) fileId message userMsgId genMsgId now env
      = (ChatResult.notFound, db, []) := by
  have hred : messagePost db (some uid) fileId message userMsgId genMsgId
      now env
      = match db.files.find? (fun f => f.id == fileId && f.userId == uid) with
        | none => (ChatResult.notFound, db, [])
        | some file =>
            chatPipeline db uid file fileId message userMsgId genMsgId now env :=
    rfl
  rw [hred, hfile]

lemma genTexts_append (l1 l2 : List ChatEvent) :
    genTexts (l1 ++ l2) = genTexts l1 ++ genTexts l2 := by
  simp [genTexts]

lemma fwdTokens_append (l1 l2 : List ChatEvent) :
    fwdTokens (l1 ++ l2) = fwdTokens l1 ++ fwdTokens l2 := by
  simp [fwdTokens]

lemma genTexts_forward (ts : List String) :
    genTexts (ts.map ChatEvent.forwardToken) = [] := by
  induction ts with
  | nil => rfl
  | cons t ts ih => simp [genTexts]

lemma fwdTokens_forward (ts : List String) :
    fwdTokens (ts.map ChatEvent.forwardToken) = ts := by
  induction ts with
  | nil => rfl
  | cons t ts ih => simpa [fwdTokens] using ih

/-- C6: on the answer path, when the completion request fails before any
token, no generated message is persisted (neither as an event nor in the
message table); when at least one token streams to a clean end, exactly
one generated message is persisted whose text is the concatenation, in
order, of exactly the tokens forwarded to the caller. -/
theorem answer_persistence_matches_stream (db : DB)
    (uid fileId message userMsgId genMsgId : String) (now : Nat)
    (env : ChatEnv) (file : FileRec)
    (hfile : db.files.find? (fun f => f.id == fileId && f.userId == uid)
      = some file) :
    (env.outcome = StreamOutcome.errorBeforeTokens →
      genTexts (messagePost db (some uid) fileId message userMsgId genMsgId
          now env).2.2 = []
      ∧ nonUserMessages (messagePost db (some uid) fileId message userMsgId
          genMsgId now env).2.1.messages = nonUserMessages db.messages)
    ∧ (∀ ts, env.outcome = StreamOutcome.cleanEnd ts → ts ≠ [] →
      genTexts (messagePost db (some uid) fileId message userMsgId genMsgId
          now env).2.2
        = [String.join (fwdTokens (messagePost db (some uid) fileId message
            userMsgId genMsgId now env).2.2)]
      ∧ fwdTokens (messagePost db (some uid) fileId message userMsgId
          genMsgId now env).2.2 = ts
      ∧ nonUserMessages (messagePost db (some uid) fileId message userMsgId
          genMsgId now env).2.1.messages
        = nonUserMessages db.messages ++
            [{ id := genMsgId, fileId := fileId, userId := uid,
               text := String.join ts, isUserMessage := false,
               createdAt := now }]) := by
  rw [messagePost_found db uid file fileId message userMsgId genMsgId now env
    hfile]
  constructor
  · intro hout
    simp only [chatPipeline, hout]
    refine ⟨rfl, ?_⟩
    simp [nonUserMessages, List.filter_append]
  · intro ts hout hne
    simp only [chatPipeline, hout]
    refine ⟨?_, ?_, ?_⟩
    · rw [genTexts_append, genTexts_append, fwdTokens_append,
        fwdTokens_append, genTexts_forward, fwdTokens_forward]
      simp [genTexts, fwdTokens]
    · rw [fwdTokens_append, fwdTokens_append, fwdTokens_forward]
      simp [fwdTokens]
    · simp [nonUserMessages, List.filter_append]

/-- C6 witness: a concrete clean two-token stream forwards exactly those
tokens. -/
theorem answer_persistence_matches_stream_witness :
    fwdTokens (messagePost
      ⟨[{ id := "d1", key := "k1", name := "n", userId := "me", url := "url",
          uploadStatus := UploadStatus.SUCCESS }], []⟩
      (some "me") "d1" "q" "m1" "m2" 5
      ⟨[], StreamOutcome.cleanEnd ["a", "b"]⟩).2.2 = ["a", "b"] :=
  ((answer_persistence_matches_stream
    ⟨[{ id := "d1", key := "k1", name := "n", userId := "me", url := "url",
        uploadStatus := UploadStatus.SUCCESS }], []⟩
    "me" "d1" "q" "m1" "m2" 5 ⟨[], StreamOutcome.cleanEnd ["a", "b"]⟩
    { id := "d1", key := "k1", name := "n", userId := "me", url := "url",
      uploadStatus := UploadStatus.SUCCESS }
    (by decide)).2 ["a", "b"] rfl (by decide)).2.1

lemma mem_pre_of_third (a b : ChatEvent) (tl pre suf : List ChatEvent)
    (p : List (String × String))
    (h : a :: b :: tl = pre ++ ChatEvent.completionRequest p :: suf)
    (ha : ∀ q, a ≠ ChatEvent.completionRequest q)
    (hb : ∀ q, b ≠ ChatEvent.completionRequest q) :
    a ∈ pre := by
  cases pre with
  | nil =>
      rw [List.nil_append] at h
      injection h with h1 _
      exact absurd h1 (ha p)
  | cons x pre' =>
      cases pre' with
      | nil =>
          rw [List.cons_append, List.nil_append] at h
          injection h with h1 h2
          injection h2 with h3 _
          exact absurd h3 (hb p)
      | cons y pre'' =>
          rw [List.cons_append, List.cons_append] at h
          injection h with h1 _
          rw [h1]
          exact List.mem_cons_self x (y :: pre'')

/-- C7: in every execution of the message handler whose event trace
contains the completion request, the user's message was persisted strictly
before it: any decomposition of the trace around the completion request
finds the user-message persist in the prefix. -/
theorem userMsg_persisted_before_completion (db : DB)
    (userId : Option String)
    (fileId message userMsgId genMsgId : String) (now : Nat) (env : ChatEnv)
    (pre suf : List ChatEvent) (p : List (String × String))
    (h : (messagePost db userId fileId message userMsgId genMsgId now
        env).2.2 = pre ++ ChatEvent.completionRequest p :: suf) :
    ChatEvent.persistUserMsg message ∈ pre := by
  cases userId with
  | none =>
      have h0 : ([] : List ChatEvent)
          = pre ++ ChatEvent.completionRequest p :: suf := h
      have hlen := congrArg List.length h0
      simp only [List.length_nil, List.length_append, List.length_cons]
        at hlen
      omega
  | some uid =>
      cases hf : db.files.find? (fun f => f.id == fileId && f.userId == uid)
        with
      | none =>
          rw [messagePost_lookup_failed db uid fileId message userMsgId
            genMsgId now env hf] at h
          have h0 : ([] : List ChatEvent)
              = pre ++ ChatEvent.completionRequest p :: suf := h
          have hlen := congrArg List.length h0
          simp only [List.length_nil, List.length_append, List.length_cons]
            at hlen
          omega
      | some file =>
          rw [messagePost_found db uid file fileId message userMsgId genMsgId
            now env hf] at h
          cases hout : env.outcome with
          | errorBeforeTokens =>
              simp only [chatPipeline, hout] at h
              exact mem_pre_of_third _ _ _ pre suf p h
                (by intro q hq; cases hq) (by intro q hq; cases hq)
          | cleanEnd ts =>
              simp only [chatPipeline, hout, List.cons_append,
                List.nil_append, List.append_assoc] at h
              exact mem_pre_of_third _ _ _ pre suf p h
                (by intro q hq; cases hq) (by intro q hq; cases hq)
          | transportError ts =>
              simp only [chatPipeline, hout, List.cons_append,
                List.nil_append, List.append_assoc] at h
              exact mem_pre_of_third _ _ _ pre suf p h
                (by intro q hq; cases hq) (by intro q hq; cases hq)

/-- C7 witness: in a concrete run the events before the completion request
contain the user-message persist. -/
theorem userMsg_persisted_before_completion_witness :
    ChatEvent.persistUserMsg "q"
      ∈ [ChatEvent.persistUserMsg "q", ChatEvent.vectorQuery "d1" "q" 4] :=
  userMsg_persisted_before_completion
    ⟨[{ id := "d1", key := "k1", name := "n", userId := "me", url := "url",
        uploadStatus := UploadStatus.SUCCESS }], []⟩
    (some "me") "d1" "q" "m1" "m2" 5 ⟨[], StreamOutcome.errorBeforeTokens⟩
    [ChatEvent.persistUserMsg "q", ChatEvent.vectorQuery "d1" "q" 4] []
    (chatPrompt [("user", "q")] [] "q") rfl

end LivDoc
